import Mathlib

/-!
# Verification of the BLE ping-pong throughput tester (`pi-ble/ping_pong.py`)

This file is a shallow embedding of the message codec, the RTS/CTS protocol
state machine, the buffered metrics logger and the per-run recovery logic of
`ping_pong.py`, together with theorems settling the spec's claims about them.

Strings are modelled as `List Char`; machine integers as `Int`/`Nat`
(Python integers are unbounded, so no wrapping is needed); the mutable
peer object as an explicit state record threaded through the handlers.
-/

namespace PingPong

/-! ## List utilities mirroring Python string primitives -/

/-- Index of the first occurrence of `c` in `xs`, or `none`.
Building block for Python's `str.find`. -/
def idxOfChar (c : Char) : List Char → Option Nat
  | [] => none
  | x :: xs => if x = c then some 0 else (idxOfChar c xs).map (· + 1)

/-- Python `message.find(c, start)`: first index `≥ start` holding `c`
(`none` stands for Python's `-1`). -/
def findFrom (s : List Char) (c : Char) (start : Nat) : Option Nat :=
  (idxOfChar c (s.drop start)).map (start + ·)

/-- Python slice `s[a:b]` for `0 ≤ a`, `0 ≤ b` (clamped at the length). -/
def slice (s : List Char) (a b : Nat) : List Char :=
  (s.take b).drop a

/-! ## Decimal rendering and parsing (Python `str(int)` / `int(str)`)

`natDigits` is written with explicit fuel so that it reduces in the kernel;
`natDigits_unfold` recovers the natural recursion equation. -/

def natDigitsAux : Nat → Nat → List Char
  | 0, _ => []
  | fuel + 1, n =>
    if n < 10 then [Nat.digitChar n]
    else natDigitsAux fuel (n / 10) ++ [Nat.digitChar (n % 10)]

/-- Decimal digit string of a natural number, as Python's `str` renders it. -/
def natDigits (n : Nat) : List Char := natDigitsAux (n + 1) n

/-- Value of a digit character. -/
def digitVal (c : Char) : Nat := c.toNat - 48

/-- Accumulating decimal value of a digit list. -/
def valAux (a : Nat) (cs : List Char) : Nat :=
  cs.foldl (fun acc c => 10 * acc + digitVal c) a

/-- Python `str(i)` for an `int`: decimal digits, `'-'`-prefixed when negative. -/
def pyStr (i : Int) : List Char :=
  if i < 0 then '-' :: natDigits (-i).toNat else natDigits i.toNat

/-- ASCII whitespace stripped by Python's `int(str)` (the model is restricted
to ASCII inputs; the source only ever feeds it ASCII wire text). -/
def isPySpace (c : Char) : Bool :=
  c = ' ' || c = '\t' || c = '\n' || c = '\r' || c = '\x0b' || c = '\x0c'

/-- Python `str.strip()` over the whitespace class above. -/
def stripPy (s : List Char) : List Char :=
  ((s.dropWhile isPySpace).reverse.dropWhile isPySpace).reverse

/-- Digit run after the first digit: Python's `int` grammar allows single
underscores between digits. -/
def digitsTail : List Char → Bool
  | [] => true
  | c :: cs =>
    if c = '_' then
      match cs with
      | [] => false
      | d :: ds => d.isDigit && digitsTail ds
    else c.isDigit && digitsTail cs

/-- Nonempty digit run, with Python's underscore rule. -/
def validDigits : List Char → Bool
  | [] => false
  | c :: cs => c.isDigit && digitsTail cs

/-- Numeric value of a digit run (underscores removed). -/
def digitsValue (cs : List Char) : Int :=
  ((valAux 0 (cs.filter (· != '_'))) : Int)

/-- Sign handling of Python `int(s)` on the already-stripped text. -/
def pyIntCore : List Char → Option Int
  | [] => none
  | c :: rest =>
    if c = '+' then (if validDigits rest then some (digitsValue rest) else none)
    else if c = '-' then (if validDigits rest then some (-(digitsValue rest)) else none)
    else if validDigits (c :: rest) then some (digitsValue (c :: rest)) else none

/-- Python `int(s)`: `none` models the `ValueError` swallowed by
`parse_message`'s `except` clause. -/
def pyInt (s : List Char) : Option Int := pyIntCore (stripPy s)

/-! ## Message model (`MESSAGE_TYPE`, `Message`, `Message.__str__`) -/

/-- The `MESSAGE_TYPE` enum of the source. -/
inductive MESSAGE_TYPE : Type
  | DATA
  | RTS
  | CTS
deriving DecidableEq, Repr

/-- `MESSAGE_TYPE.value`: the wire text of each enum member. -/
def MESSAGE_TYPE.value : MESSAGE_TYPE → List Char
  | .DATA => "DATA".toList
  | .RTS => "RTS".toList
  | .CTS => "CTS".toList

/-- `MESSAGE_TYPE.is_message_type`. -/
def is_message_type (msg_type : List Char) : Bool :=
  msg_type == "DATA".toList || msg_type == "RTS".toList || msg_type == "CTS".toList

/-- Python `MESSAGE_TYPE[name]` under the guard `is_message_type name`. -/
def msgTypeOfString (mt : List Char) : MESSAGE_TYPE :=
  if mt = "DATA".toList then .DATA else if mt = "RTS".toList then .RTS else .CTS

/-- The `Message` object. `size` is the constructor's `size` argument: every
call site in the source passes a nonzero value (`message_size` ≥ 1 from CLI
validation, or `len(message)` ≥ 8 in `parse_message`), so the
`size == 0 → len(str(self))` default branch — which would in fact crash on
attribute-before-assignment — is never exercised and is not modelled. -/
structure Message : Type where
  id : List Char
  creation_timestamp_ms : Int
  msg_type : MESSAGE_TYPE
  data_content : List Char
  size : Nat
  incoming : Bool
  receive_timestamp_ms : Int
deriving DecidableEq, Repr

/-- The unpadded f-string `[id][ts][type][content]` built first
in `Message.__str__`. -/
def Message.base (m : Message) : List Char :=
  '[' :: m.id ++ ']' :: '[' :: pyStr m.creation_timestamp_ms ++
    ']' :: '[' :: m.msg_type.value ++ ']' :: '[' :: m.data_content ++ [']']

/-- `Message.__str__`: encode, padding outbound DATA frames with `'1'`
filler before the payload's closing bracket when shorter than `size`. -/
def Message.str (m : Message) : List Char :=
  let message := m.base
  if m.msg_type = MESSAGE_TYPE.DATA ∧ m.incoming = false then
    let remaining : Int := (m.size : Int) - (message.length : Int)
    if 0 < remaining then
      '[' :: m.id ++ ']' :: '[' :: pyStr m.creation_timestamp_ms ++
        ']' :: '[' :: m.msg_type.value ++ ']' :: '[' :: m.data_content ++
        List.replicate remaining.toNat '1' ++ [']']
    else message
  else message

/-- `Message.get_duration`. -/
def Message.get_duration (m : Message) : Int :=
  m.receive_timestamp_ms - m.creation_timestamp_ms

/-! ## Decoding (`parse_message`) -/

/-- The bracket-position loop of `parse_message`: for each pattern character
in turn, `message.find(c, start)`, advancing `start` past each hit. -/
def findSeq (s : List Char) : List Char → Nat → Option (List Nat)
  | [], _ => some []
  | c :: cs, start =>
    match findFrom s c start with
    | none => none
    | some p => (findSeq s cs (p + 1)).map (p :: ·)

/-- The 8 alternating bracket positions sought by `parse_message`
(4 opening, 4 closing). -/
def findBrackets (s : List Char) : Option (List Nat) :=
  findSeq s ['[', ']', '[', ']', '[', ']', '[', ']'] 0

/-- `parse_message`: decode wire text plus arrival time into a `Message`,
`none` on any failure (missing brackets, non-integer timestamp field,
unknown message type — the `except` clause maps them all to `None`). -/
def parse_message (message : List Char) (receival_time : Int) : Option Message :=
  match findBrackets message with
  | some [b0, b1, b2, b3, _b4, b5, b6, b7] =>
    match pyInt (slice message (b2 + 1) b3) with
    | none => none
    | some creation_timestamp_ms =>
      let msg_type := slice message (_b4 + 1) b5
      if is_message_type msg_type then
        some { id := slice message (b0 + 1) b1
               creation_timestamp_ms := creation_timestamp_ms
               msg_type := msgTypeOfString msg_type
               data_content := slice message (b6 + 1) b7
               size := message.length
               incoming := true
               receive_timestamp_ms := receival_time }
      else none
  | _ => none

/-! ## Spec-side view of the wire format: greedily scanned bracketed groups

`bracketGroups` reads "the bracketed groups of the input" the way the spec's
wire-format section does: repeatedly find the next `[`, then the next `]`,
and take what lies between. It is used to state claim C2 declaratively and
is proved equivalent to `parse_message`'s 8-position search. -/

def groupsFrom (s : List Char) : Nat → Nat → List (List Char)
  | 0, _ => []
  | fuel + 1, start =>
    match findFrom s '[' start with
    | none => []
    | some p =>
      match findFrom s ']' (p + 1) with
      | none => []
      | some q => slice s (p + 1) q :: groupsFrom s fuel (q + 1)

/-- All complete `[...]` groups of `s`, scanned greedily left to right. -/
def bracketGroups (s : List Char) : List (List Char) :=
  groupsFrom s s.length 0

/-- `k` alternating `[`/`]` pattern characters. -/
def altPattern : Nat → List Char
  | 0 => []
  | k + 1 => '[' :: ']' :: altPattern k

/-- Contents between consecutive position pairs. -/
def pairSlices (s : List Char) : List Nat → List (List Char)
  | p :: q :: rest => slice s (p + 1) q :: pairSlices s rest
  | _ => []

/-! ## Peer protocol state (`ThroughputTestPeer`)

The mutable fields of the peer object used by the protocol logic, plus a
model of the filesystem the logger appends to: `fs name = some chunks`
when file `name` exists and holds the written chunks in order, `none`
otherwise. Operations that read the wall clock take `now` (milliseconds,
or seconds where noted) as an explicit argument. -/

structure PeerState : Type where
  peer_name : List Char
  range_id : List Char
  test_duration : Nat
  message_size : Nat
  sent_messages_count : Nat
  received_messages_count : Nat
  test_active : Bool
  experiment_active : Bool
  clear_to_send : Bool
  should_send_ping : Bool
  got_control_message : Bool
  got_data_message : Bool
  incoming_message_queue : List Message
  outgoing_message_queue : List Message
  log_filename : List Char
  log_buffer : List (List Char)
  buffer_size_limit : Nat
  fs : List Char → Option (List (List Char))

/-- `is_own_message`: id starts with `f"{self.peer_name}_"`. -/
def is_own_message (s : PeerState) (message : Message) : Bool :=
  (s.peer_name ++ "_".toList).isPrefixOf message.id

/-- `create_message`: build a message whose id is
`f"{self.peer_name}_M_{self.sent_messages_count}"` and bump the counter. -/
def create_message (s : PeerState) (now : Int) (msg_type : MESSAGE_TYPE)
    (data_content : List Char) : Message × PeerState :=
  ({ id := s.peer_name ++ "_M_".toList ++ natDigits s.sent_messages_count
     creation_timestamp_ms := now
     msg_type := msg_type
     data_content := data_content
     size := s.message_size
     incoming := false
     receive_timestamp_ms := 0 },
   { s with sent_messages_count := s.sent_messages_count + 1 })

/-- `send_cts`: create a CTS message and push it on the outgoing queue. -/
def send_cts (s : PeerState) (now : Int) : PeerState :=
  let r := create_message s now MESSAGE_TYPE.CTS []
  { r.2 with outgoing_message_queue := r.2.outgoing_message_queue ++ [r.1] }

/-- `send_rts`: create an RTS message and push it on the outgoing queue. -/
def send_rts (s : PeerState) (now : Int) : PeerState :=
  let r := create_message s now MESSAGE_TYPE.RTS []
  { r.2 with outgoing_message_queue := r.2.outgoing_message_queue ++ [r.1] }

/-- `send_pong_response`: create a PONG data message and enqueue it. -/
def send_pong_response (s : PeerState) (now : Int) : PeerState :=
  let r := create_message s now MESSAGE_TYPE.DATA ("PONG".toList)
  { r.2 with outgoing_message_queue := r.2.outgoing_message_queue ++ [r.1] }

/-! ## Buffered metrics logger -/

/-- The CSV header line written by `flush_log_buffer`. -/
def csvHeader : List Char := "timestamp,duration,message_length\n".toList

/-- `flush_log_buffer`: append the buffer to the current log file, writing
the header first when the file does not yet exist; no-op when the buffer or
the filename is empty. -/
def flush_log_buffer (s : PeerState) : PeerState :=
  if s.log_buffer = [] ∨ s.log_filename = [] then s
  else
    let file_exists := (s.fs s.log_filename).isSome
    let content := (if file_exists then (s.fs s.log_filename).getD [] else [csvHeader])
      ++ s.log_buffer
    { s with
      fs := fun f => if f = s.log_filename then some content else s.fs f
      log_buffer := [] }

/-- `add_to_log_buffer`: append a line; flush when the buffer reaches
`buffer_size_limit`. -/
def add_to_log_buffer (s : PeerState) (log_line : List Char) : PeerState :=
  let s1 := { s with log_buffer := s.log_buffer ++ [log_line] }
  if s.buffer_size_limit ≤ s1.log_buffer.length then flush_log_buffer s1 else s1

/-- The f-string of `log_received_message`:
`f"{message.receive_timestamp_ms},{message.get_duration()},{message.size}\n"`. -/
def recvLogLine (message : Message) : List Char :=
  pyStr message.receive_timestamp_ms ++ ",".toList ++
    pyStr message.get_duration ++ ",".toList ++ pyStr (message.size : Int) ++
    "\n".toList

/-- `log_received_message`. -/
def log_received_message (s : PeerState) (message : Message) : PeerState :=
  add_to_log_buffer s (recvLogLine message)

/-! ## Inbound dispatch (`process_message` and the message handlers) -/

/-- `handle_rts_message`: role becomes responder, clear-to-send drops,
one CTS reply is queued. -/
def handle_rts_message (s : PeerState) (now : Int) (_message : Message) : PeerState :=
  send_cts { s with should_send_ping := false, clear_to_send := false } now

/-- `handle_cts_message`: set clear-to-send. -/
def handle_cts_message (s : PeerState) (_message : Message) : PeerState :=
  { s with clear_to_send := true }

/-- The f-string buffered unconditionally by `handle_data_message`:
`f"{int(time.time() * 1000)},{message.get_duration()},{message.size}\n"`. -/
def dataLogLine (now : Int) (message : Message) : List Char :=
  pyStr now ++ ",".toList ++ pyStr message.get_duration ++ ",".toList ++
    pyStr (message.size : Int) ++ "\n".toList

/-- `handle_data_message`: always buffer a log line
(`f"{now},{duration},{size}\n"`); when the test is active additionally log
via `log_received_message` and answer a PING payload with one PONG. -/
def handle_data_message (s : PeerState) (now : Int) (message : Message) : PeerState :=
  let s1 := add_to_log_buffer s (dataLogLine now message)
  if s1.test_active then
    let s2 := log_received_message s1 message
    if "PING".toList.isPrefixOf message.data_content then
      send_pong_response s2 now
    else s2
  else s1

/-- `process_message`: bump the received counter and dispatch on the type. -/
def process_message (s : PeerState) (now : Int) (message : Message) : PeerState :=
  let s1 := { s with received_messages_count := s.received_messages_count + 1 }
  match message.msg_type with
  | MESSAGE_TYPE.RTS => handle_rts_message s1 now message
  | MESSAGE_TYPE.CTS => handle_cts_message s1 message
  | MESSAGE_TYPE.DATA => handle_data_message s1 now message

/-- `handle_peer_message`: decode the received bytes; drop undecodable and
self-authored frames; dispatch the first control frame and first data frame
of the run synchronously, queue the rest. -/
def handle_peer_message (s : PeerState) (now : Int) (value : List Char) : PeerState :=
  match parse_message value now with
  | none => s
  | some message =>
    if is_own_message s message then s
    else
      match message.msg_type with
      | MESSAGE_TYPE.CTS | MESSAGE_TYPE.RTS =>
        if s.got_control_message = false then
          process_message { s with got_control_message := true } now message
        else
          { s with incoming_message_queue := s.incoming_message_queue ++ [message] }
      | MESSAGE_TYPE.DATA =>
        if s.got_data_message = false then
          process_message { s with got_data_message := true } now message
        else
          { s with incoming_message_queue := s.incoming_message_queue ++ [message] }

/-! ## Sender pacing loop (`start_ping_sequence`), observed as a phase -/

inductive PingPhase : Type
  | waiting
  | stopped
  | active
deriving DecidableEq, Repr

/-- Where `start_ping_sequence` stands for a given protocol state: spinning
in its wait loop, returning because the role flipped to responder, or in
the active PING-emitting loop. -/
def ping_sequence_phase (s : PeerState) : PingPhase :=
  if s.clear_to_send = false ∧ s.should_send_ping = true then PingPhase.waiting
  else if s.should_send_ping = false then PingPhase.stopped
  else PingPhase.active

/-! ## Run lifecycle (`run_throughput_test`) -/

/-- `setup_log_filename`: fresh per-run file path under the range
directory, and a cleared buffer. `now_s` is `int(time.time())`. -/
def setup_log_filename (s : PeerState) (now_s : Int) (run_number : Nat) : PeerState :=
  { s with
    log_filename := "ranges/".toList ++ s.range_id ++ "/throughput_test_".toList ++
      s.peer_name ++ "_".toList ++ pyStr now_s ++ "_run_".toList ++
      natDigits run_number ++ ".csv".toList
    log_buffer := [] }

/-- The per-run state reset at the top of `run_throughput_test`
(lines 658-668): fresh log file, `test_active` raised, counters zeroed,
events cleared, sender-role defaults restored. -/
def prepare_run (s : PeerState) (now_s : Int) (run_number : Nat) : PeerState :=
  let s1 := setup_log_filename s now_s run_number
  { s1 with
    test_active := true
    sent_messages_count := 0
    received_messages_count := 0
    got_control_message := false
    got_data_message := false
    should_send_ping := true
    clear_to_send := false }

/-- `min(5.0, self.test_duration * 0.1)`: the bounded recovery window. -/
def recovery_wait_window (test_duration : Nat) : ℚ :=
  min 5 ((test_duration : ℚ) * 0.1)

/-- Outcome of the tail of `run_throughput_test` (lines 692-725): the
`event_wait(got_data_message, test_duration)` result `got_data`, the
role-dependent recovery resend, the bounded recovery wait, and the
unconditional full measurement sleep after which `test_active` drops.
The concurrently running pacing task is observed via `ping_sequence_phase`,
not modelled inside this trace. -/
structure RunTailResult : Type where
  final : PeerState
  recovery_attempted : Bool
  recovery_wait_s : Option ℚ
  ping_task_restarted : Bool
  measured_s : Nat

/-- The stall-recovery and measurement tail of `run_throughput_test`. -/
def run_tail (s : PeerState) (now : Int) (got_data got_data_after_resend : Bool) :
    RunTailResult :=
  if got_data then
    { final := { s with test_active := false }
      recovery_attempted := false
      recovery_wait_s := none
      ping_task_restarted := false
      measured_s := s.test_duration }
  else
    let s1 := if s.should_send_ping then send_rts s now else send_cts s now
    { final := { s1 with test_active := false }
      recovery_attempted := true
      recovery_wait_s := some (recovery_wait_window s.test_duration)
      ping_task_restarted := s.should_send_ping && got_data_after_resend
      measured_s := s.test_duration }

/-! ## Observation helpers used by the claims -/

/-- Number of PONG data frames on a queue. -/
def countPongs (q : List Message) : Nat :=
  (q.filter (fun m => m.msg_type == MESSAGE_TYPE.DATA &&
    m.data_content == "PONG".toList)).length

/-- Dispatch a list of messages to the state machine in order. -/
def processMany (s : PeerState) (now : Int) (msgs : List Message) : PeerState :=
  msgs.foldl (fun st m => process_message st now m) s

/-- Create `n` messages in a row (no run reset in between). -/
def createMany (s : PeerState) (now : Int) : Nat → List Message × PeerState
  | 0 => ([], s)
  | n + 1 =>
    let r1 := create_message s now MESSAGE_TYPE.DATA []
    let r2 := createMany r1.2 now n
    (r1.1 :: r2.1, r2.2)

/-- Count of non-header lines in a chunk list. -/
def countNonHeader (ls : List (List Char)) : Nat :=
  (ls.filter (fun l => l != csvHeader)).length

/-- Data records owned by the current run: buffered lines plus non-header
lines already flushed to the run's file. -/
def totalRecords (s : PeerState) : Nat :=
  countNonHeader s.log_buffer + countNonHeader ((s.fs s.log_filename).getD [])

/-- The CSV column header asserted by the spec's persisted-state section
(`message_id,timestamp_ms,message_length`), for comparison with the header
the code actually writes. -/
def specClaimedHeader : List Char := "message_id,timestamp_ms,message_length\n".toList

/-! ## Concrete sample inputs used by witnesses and counterexamples -/

/-- An empty filesystem. -/
def emptyFS : List Char → Option (List (List Char)) := fun _ => none

/-- A concrete responder-state peer in an active test run. -/
def samplePeer : PeerState :=
  { peer_name := "A".toList
    range_id := "default".toList
    test_duration := 30
    message_size := 100
    sent_messages_count := 0
    received_messages_count := 0
    test_active := true
    experiment_active := true
    clear_to_send := false
    should_send_ping := false
    got_control_message := false
    got_data_message := false
    incoming_message_queue := []
    outgoing_message_queue := []
    log_filename := "f".toList
    log_buffer := []
    buffer_size_limit := 1000
    fs := emptyFS }

/-- A concrete inbound PING data frame from peer `B`. -/
def samplePing : Message :=
  { id := "B_M_0".toList
    creation_timestamp_ms := 1
    msg_type := MESSAGE_TYPE.DATA
    data_content := "PING".toList
    size := 100
    incoming := true
    receive_timestamp_ms := 2 }

/-- A concrete outbound control frame from peer `A` (used for the
round-trip witness). -/
def sampleRts : Message :=
  { id := "A_M_0".toList
    creation_timestamp_ms := 5
    msg_type := MESSAGE_TYPE.RTS
    data_content := []
    size := 100
    incoming := false
    receive_timestamp_ms := 0 }

theorem idxOfChar_cons_self (c : Char) (xs : List Char) :
    idxOfChar c (c :: xs) = some 0 := by
  simp [idxOfChar]

theorem idxOfChar_append_not_mem {c : Char} {xs : List Char} (ys : List Char)
    (h : c ∉ xs) : idxOfChar c (xs ++ c :: ys) = some xs.length := by
  induction xs with
  | nil => simp [idxOfChar]
  | cons x xs ih =>
    have hx : x ≠ c := fun hxc => h (hxc ▸ List.mem_cons_self x xs)
    have hmem : c ∉ xs := fun hm => h (List.mem_cons_of_mem x hm)
    simp [idxOfChar, hx, ih hmem]

theorem idxOfChar_lt_length {c : Char} {xs : List Char} {i : Nat}
    (h : idxOfChar c xs = some i) : i < xs.length := by
  induction xs generalizing i with
  | nil => simp [idxOfChar] at h
  | cons x xs ih =>
    by_cases hx : x = c
    · simp [idxOfChar, hx] at h
      simp only [List.length_cons]
      omega
    · simp [idxOfChar, hx] at h
      obtain ⟨j, hj, rfl⟩ := h
      have := ih hj
      simp only [List.length_cons]
      omega

theorem findFrom_lt_length {s : List Char} {c : Char} {start p : Nat}
    (h : findFrom s c start = some p) : p < s.length := by
  unfold findFrom at h
  cases hidx : idxOfChar c (s.drop start) with
  | none => simp [hidx] at h
  | some i =>
    simp [hidx] at h
    have hi := idxOfChar_lt_length hidx
    rw [List.length_drop] at hi
    omega

theorem findFrom_ge_start {s : List Char} {c : Char} {start p : Nat}
    (h : findFrom s c start = some p) : start ≤ p := by
  unfold findFrom at h
  cases hidx : idxOfChar c (s.drop start) with
  | none => simp [hidx] at h
  | some i => simp [hidx] at h; omega

theorem natDigitsAux_congr : ∀ n f₁ f₂, n < f₁ → n < f₂ →
    natDigitsAux f₁ n = natDigitsAux f₂ n := by
  intro n
  induction n using Nat.strong_induction_on with
  | _ n ih =>
    intro f₁ f₂ h₁ h₂
    match f₁, f₂ with
    | f₁ + 1, f₂ + 1 =>
      simp only [natDigitsAux]
      by_cases hn : n < 10
      · simp [hn]
      · simp only [hn, if_false]
        have hdiv : n / 10 < n := Nat.div_lt_self (by omega) (by omega)
        rw [ih (n / 10) hdiv f₁ f₂ (by omega) (by omega)]

theorem natDigits_unfold (n : Nat) :
    natDigits n = if n < 10 then [Nat.digitChar n]
      else natDigits (n / 10) ++ [Nat.digitChar (n % 10)] := by
  unfold natDigits
  conv_lhs => rw [natDigitsAux]
  by_cases hn : n < 10
  · simp [hn]
  · simp only [hn, if_false]
    have hdiv : n / 10 < n := Nat.div_lt_self (by omega) (by omega)
    rw [natDigitsAux_congr (n / 10) n (n / 10 + 1) (by omega) (by omega)]

theorem natDigits_ne_nil (n : Nat) : natDigits n ≠ [] := by
  rw [natDigits_unfold]
  by_cases hn : n < 10 <;> simp [hn]

theorem digitChar_isDigit {n : Nat} (h : n < 10) :
    (Nat.digitChar n).isDigit = true := by
  interval_cases n <;> decide

theorem natDigits_all_digits (n : Nat) :
    ∀ c ∈ natDigits n, c.isDigit = true := by
  induction n using Nat.strong_induction_on with
  | _ n ih =>
    intro c hc
    rw [natDigits_unfold] at hc
    by_cases hn : n < 10
    · simp [hn] at hc
      exact hc ▸ digitChar_isDigit hn
    · simp only [hn, if_false, List.mem_append, List.mem_singleton] at hc
      rcases hc with hc | hc
      · exact ih (n / 10) (Nat.div_lt_self (by omega) (by omega)) c hc
      · exact hc ▸ digitChar_isDigit (Nat.mod_lt n (by omega))

theorem digitVal_digitChar {n : Nat} (h : n < 10) :
    digitVal (Nat.digitChar n) = n := by
  interval_cases n <;> decide

theorem valAux_append (a : Nat) (xs ys : List Char) :
    valAux a (xs ++ ys) = valAux (valAux a xs) ys := by
  simp [valAux, List.foldl_append]

theorem valAux_natDigits (n : Nat) : ∀ a, valAux a (natDigits n) = a * 10 ^ (natDigits n).length + n := by
  induction n using Nat.strong_induction_on with
  | _ n ih =>
    intro a
    rw [natDigits_unfold]
    by_cases hn : n < 10
    · simp [hn, valAux, digitVal_digitChar hn, Nat.mul_comm]
    · simp only [hn, if_false]
      rw [valAux_append]
      have hdiv : n / 10 < n := Nat.div_lt_self (by omega) (by omega)
      rw [ih (n / 10) hdiv a]
      simp only [valAux, List.foldl_cons, List.foldl_nil,
        digitVal_digitChar (Nat.mod_lt n (by omega : 0 < 10)),
        List.length_append, List.length_singleton]
      rw [pow_succ]
      have := Nat.div_add_mod n 10
      ring_nf
      omega

theorem valAux_zero_natDigits (n : Nat) : valAux 0 (natDigits n) = n := by
  simpa using valAux_natDigits n 0

theorem natDigits_injective : Function.Injective natDigits := by
  intro m n h
  have hm := valAux_zero_natDigits m
  have hn := valAux_zero_natDigits n
  rw [h] at hm
  omega

theorem isDigit_not_special {c : Char} (h : c.isDigit = true) :
    isPySpace c = false ∧ c ≠ '_' ∧ c ≠ '+' ∧ c ≠ '-' ∧ c ≠ '[' ∧ c ≠ ']' := by
  refine ⟨?_, ?_, ?_, ?_, ?_, ?_⟩ <;>
    first
      | (intro hc; subst hc; exact absurd h (by decide))
      | (by_cases hsp : isPySpace c = false
         · exact hsp
         · exfalso
           rw [Bool.not_eq_false] at hsp
           simp only [isPySpace, Bool.or_eq_true, decide_eq_true_eq] at hsp
           rcases hsp with ((((h1 | h1) | h1) | h1) | h1) | h1 <;>
             (subst h1; exact absurd h (by decide)))

theorem dropWhile_eq_self_of_all {p : Char → Bool} {s : List Char}
    (h : ∀ c ∈ s, p c = false) : s.dropWhile p = s := by
  cases s with
  | nil => rfl
  | cons c cs => simp [List.dropWhile_cons, h c (List.mem_cons_self c cs)]

theorem stripPy_eq_self {s : List Char} (h : ∀ c ∈ s, isPySpace c = false) :
    stripPy s = s := by
  unfold stripPy
  rw [dropWhile_eq_self_of_all h,
    dropWhile_eq_self_of_all (fun c hc => h c (List.mem_reverse.mp hc)),
    List.reverse_reverse]

theorem digitsTail_of_all_digits {cs : List Char}
    (h : ∀ c ∈ cs, c.isDigit = true) : digitsTail cs = true := by
  induction cs with
  | nil => rfl
  | cons c cs ih =>
    have hc := h c (List.mem_cons_self c cs)
    have hne := (isDigit_not_special hc).2.1
    have hrest := ih (fun d hd => h d (List.mem_cons_of_mem c hd))
    rw [digitsTail.eq_def]
    simp [hne, hc, hrest]

theorem validDigits_of_all_digits {cs : List Char} (hne : cs ≠ [])
    (h : ∀ c ∈ cs, c.isDigit = true) : validDigits cs = true := by
  cases cs with
  | nil => exact absurd rfl hne
  | cons c cs =>
    simp only [validDigits, h c (List.mem_cons_self c cs), Bool.true_and]
    exact digitsTail_of_all_digits (fun d hd => h d (List.mem_cons_of_mem c hd))

theorem digitsValue_natDigits (n : Nat) : digitsValue (natDigits n) = (n : Int) := by
  unfold digitsValue
  rw [List.filter_eq_self.mpr, valAux_zero_natDigits]
  intro c hc
  have := (isDigit_not_special (natDigits_all_digits n c hc)).2.1
  simpa using this

/-- Round trip: Python `int(str(i)) == i`. -/
theorem pyInt_pyStr (i : Int) : pyInt (pyStr i) = some i := by
  by_cases hi : i < 0
  · have hall : ∀ c ∈ pyStr i, isPySpace c = false := by
      intro c hc
      simp only [pyStr, if_pos hi, List.mem_cons] at hc
      rcases hc with rfl | hc
      · decide
      · exact (isDigit_not_special (natDigits_all_digits _ c hc)).1
    have hstrip := stripPy_eq_self hall
    simp only [pyStr, if_pos hi] at hstrip
    have hvd := validDigits_of_all_digits (natDigits_ne_nil (-i).toNat)
      (natDigits_all_digits (-i).toNat)
    unfold pyInt
    simp only [pyStr, if_pos hi, hstrip]
    simp [pyIntCore, hvd, digitsValue_natDigits]
    omega
  · have hall : ∀ c ∈ pyStr i, isPySpace c = false := by
      intro c hc
      simp only [pyStr, if_neg hi] at hc
      exact (isDigit_not_special (natDigits_all_digits _ c hc)).1
    have hstrip := stripPy_eq_self hall
    simp only [pyStr, if_neg hi] at hstrip
    unfold pyInt
    simp only [pyStr, if_neg hi, hstrip]
    rcases hd : natDigits i.toNat with _ | ⟨d, tl⟩
    · exact absurd hd (natDigits_ne_nil _)
    · have hdig : d.isDigit = true :=
        natDigits_all_digits i.toNat d (by rw [hd]; exact List.mem_cons_self d tl)
      have h1 := (isDigit_not_special hdig).2.2.1
      have h2 := (isDigit_not_special hdig).2.2.2.1
      have hvd : validDigits (d :: tl) = true := by
        rw [← hd]
        exact validDigits_of_all_digits (natDigits_ne_nil _) (natDigits_all_digits _)
      simp only [pyIntCore, if_neg h1, if_neg h2, if_pos hvd]
      rw [← hd, digitsValue_natDigits, Int.toNat_of_nonneg (by omega)]

theorem altPattern_four :
    altPattern 4 = ['[', ']', '[', ']', '[', ']', '[', ']'] := rfl

theorem findSeq_cons_inv {s : List Char} {c : Char} {cs : List Char}
    {start : Nat} {bs : List Nat}
    (h : findSeq s (c :: cs) start = some bs) :
    ∃ p rest, findFrom s c start = some p ∧
      findSeq s cs (p + 1) = some rest ∧ bs = p :: rest := by
  unfold findSeq at h
  cases hf : findFrom s c start with
  | none => rw [hf] at h; simp at h
  | some p =>
    rw [hf] at h
    dsimp only at h
    cases hr : findSeq s cs (p + 1) with
    | none => rw [hr] at h; simp at h
    | some rest =>
      rw [hr] at h
      dsimp only [Option.map] at h
      exact ⟨p, rest, rfl, hr, (Option.some.inj h).symm⟩

theorem findSeq_length {s : List Char} :
    ∀ pat start bs, findSeq s pat start = some bs → bs.length = pat.length := by
  intro pat
  induction pat with
  | nil =>
    intro start bs h
    simp only [findSeq, Option.some.injEq] at h
    simp [← h]
  | cons c cs ih =>
    intro start bs h
    obtain ⟨p, rest, _, hr, rfl⟩ := findSeq_cons_inv h
    simp [ih _ _ hr]

theorem findSeq_bound {s : List Char} :
    ∀ pat start bs, findSeq s pat start = some bs →
      pat = [] ∨ start + pat.length ≤ s.length := by
  intro pat
  induction pat with
  | nil => intro start bs _; exact Or.inl rfl
  | cons c cs ih =>
    intro start bs h
    obtain ⟨p, rest, hf, hr, rfl⟩ := findSeq_cons_inv h
    have hp := findFrom_lt_length hf
    have hsp := findFrom_ge_start hf
    rcases ih _ _ hr with rfl | hb
    · right; simp only [List.length_cons, List.length_nil]; omega
    · right; simp only [List.length_cons]; omega

theorem groupsFrom_of_findSeq {s : List Char} :
    ∀ k fuel start bs, findSeq s (altPattern k) start = some bs → k ≤ fuel →
      ∃ rest, groupsFrom s fuel start = pairSlices s bs ++ rest := by
  intro k
  induction k with
  | zero =>
    intro fuel start bs h _
    simp only [altPattern, findSeq, Option.some.injEq] at h
    subst h
    exact ⟨groupsFrom s fuel start, rfl⟩
  | succ k ih =>
    intro fuel start bs h hk
    rw [altPattern] at h
    obtain ⟨p, rest1, hf1, h1, rfl⟩ := findSeq_cons_inv h
    obtain ⟨q, rest2, hf2, h2, rfl⟩ := findSeq_cons_inv h1
    match fuel, hk with
    | f + 1, _ =>
      obtain ⟨r2, hr2⟩ := ih f (q + 1) rest2 h2 (by omega)
      refine ⟨r2, ?_⟩
      simp only [groupsFrom, hf1, hf2, pairSlices, hr2, List.cons_append]

theorem findSeq_of_groups {s : List Char} :
    ∀ k fuel start, k ≤ (groupsFrom s fuel start).length →
      (findSeq s (altPattern k) start).isSome = true := by
  intro k
  induction k with
  | zero => intro fuel start _; rfl
  | succ k ih =>
    intro fuel start hlen
    match fuel with
    | 0 => simp [groupsFrom] at hlen
    | f + 1 =>
      rw [groupsFrom] at hlen
      cases hf1 : findFrom s '[' start with
      | none => rw [hf1] at hlen; simp at hlen
      | some p =>
        rw [hf1] at hlen
        dsimp only at hlen
        cases hf2 : findFrom s ']' (p + 1) with
        | none => rw [hf2] at hlen; simp at hlen
        | some q =>
          rw [hf2] at hlen
          simp only [List.length_cons] at hlen
          have := ih f (q + 1) (by omega)
          rw [Option.isSome_iff_exists] at this
          obtain ⟨rest, hrest⟩ := this
          rw [altPattern]
          simp [findSeq, hf1, hf2, hrest]

theorem findSeq_step {s : List Char} {c : Char} {cs : List Char}
    {start p : Nat} {bs : List Nat}
    (hf : findFrom s c start = some p)
    (hrest : findSeq s cs (p + 1) = some bs) :
    findSeq s (c :: cs) start = some (p :: bs) := by
  unfold findSeq
  rw [hf]
  dsimp only
  rw [hrest]
  rfl

theorem findFrom_pref {pre rest : List Char} {c : Char} (start : Nat)
    (hstart : start ≤ pre.length) (hc : c ∉ pre.drop start) :
    findFrom (pre ++ c :: rest) c start = some pre.length := by
  unfold findFrom
  rw [List.drop_append_of_le_length hstart, idxOfChar_append_not_mem _ hc]
  simp only [Option.map_some', Option.some.injEq, List.length_drop]
  omega

theorem findFrom_block {pre rest : List Char} {c : Char} :
    findFrom (pre ++ c :: rest) c pre.length = some pre.length :=
  findFrom_pref _ le_rfl (by simp [List.drop_length])

theorem findFrom_after {pre mid rest : List Char} {c : Char} (hc : c ∉ mid) :
    findFrom (pre ++ (mid ++ c :: rest)) c pre.length =
      some (pre.length + mid.length) := by
  have he : pre ++ (mid ++ c :: rest) = (pre ++ mid) ++ c :: rest := by
    simp [List.append_assoc]
  have hd : (pre ++ mid).drop pre.length = mid := List.drop_left pre mid
  rw [he, findFrom_pref pre.length (by simp) (by rw [hd]; exact hc)]
  simp

theorem slice_exact {pre mid rest : List Char} :
    slice (pre ++ (mid ++ rest)) pre.length (pre.length + mid.length) = mid := by
  unfold slice
  have he : pre ++ (mid ++ rest) = (pre ++ mid) ++ rest := by
    simp [List.append_assoc]
  rw [he, List.take_left' (by simp), List.drop_left]

/-- Inversion of a successful `parse_message`: the 8 bracket positions
exist and the result's fields are the corresponding slices. -/
theorem parse_message_inv {s : List Char} {t : Int} {m : Message}
    (h : parse_message s t = some m) :
    ∃ b0 b1 b2 b3 b4 b5 b6 b7 ts,
      findBrackets s = some [b0, b1, b2, b3, b4, b5, b6, b7] ∧
      pyInt (slice s (b2 + 1) b3) = some ts ∧
      is_message_type (slice s (b4 + 1) b5) = true ∧
      m = { id := slice s (b0 + 1) b1
            creation_timestamp_ms := ts
            msg_type := msgTypeOfString (slice s (b4 + 1) b5)
            data_content := slice s (b6 + 1) b7
            size := s.length
            incoming := true
            receive_timestamp_ms := t } := by
  unfold parse_message at h
  cases hfb : findBrackets s with
  | none => rw [hfb] at h; simp at h
  | some bs =>
    rw [hfb] at h
    have hlen : bs.length = 8 := findSeq_length _ _ _ hfb
    obtain ⟨b0, b1, b2, b3, b4, b5, b6, b7, rfl⟩ :
        ∃ b0 b1 b2 b3 b4 b5 b6 b7, bs = [b0, b1, b2, b3, b4, b5, b6, b7] := by
      rcases bs with _ | ⟨b0, _ | ⟨b1, _ | ⟨b2, _ | ⟨b3, _ | ⟨b4, _ | ⟨b5, _ |
        ⟨b6, _ | ⟨b7, _ | ⟨b8, bs⟩⟩⟩⟩⟩⟩⟩⟩⟩ <;>
        first
          | exact ⟨_, _, _, _, _, _, _, _, rfl⟩
          | (exfalso
             simp only [List.length_cons, List.length_nil] at hlen
             omega)
    dsimp only at h
    cases hpi : pyInt (slice s (b2 + 1) b3) with
    | none => rw [hpi] at h; simp at h
    | some ts =>
      rw [hpi] at h
      dsimp only at h
      by_cases hmt : is_message_type (slice s (b4 + 1) b5) = true
      · rw [if_pos hmt] at h
        exact ⟨b0, b1, b2, b3, b4, b5, b6, b7, ts, rfl, hpi, hmt,
          (Option.some.inj h).symm⟩
      · rw [if_neg hmt] at h
        simp at h

theorem findFrom_eq_of {s1 s2 : List Char} {c : Char} {st1 st2 v1 v2 : Nat}
    (h : findFrom s1 c st1 = some v1) (hs : s2 = s1) (h1 : st2 = st1)
    (h2 : v2 = v1) : findFrom s2 c st2 = some v2 := by
  rw [hs, h1, h2]; exact h

theorem slice_eq_of {s1 s2 m : List Char} {a1 a2 b1 b2 : Nat}
    (h : slice s1 a1 b1 = m) (hs : s2 = s1) (ha : a2 = a1) (hb : b2 = b1) :
    slice s2 a2 b2 = m := by
  rw [hs, ha, hb]; exact h

/-- Decoding a well-bracketed 4-field frame: `parse_message` recovers the
four fields exactly, provided none of them contains a bracket. -/
theorem parse_canonical {A B C D s : List Char} (t : Int)
    (hs : s = '[' :: A ++ ']' :: '[' :: B ++ ']' :: '[' :: C ++ ']' :: '[' :: D ++ [']'])
    (hA2 : ']' ∉ A) (hB2 : ']' ∉ B) (hC2 : ']' ∉ C) (hD2 : ']' ∉ D) :
    parse_message s t =
      match pyInt B with
      | none => none
      | some ts =>
        if is_message_type C then
          some { id := A
                 creation_timestamp_ms := ts
                 msg_type := msgTypeOfString C
                 data_content := D
                 size := A.length + B.length + C.length + D.length + 8
                 incoming := true
                 receive_timestamp_ms := t }
        else none := by
  have f0 : findFrom s '[' 0 = some 0 := by
    refine findFrom_eq_of (@findFrom_block []
      (A ++ ']' :: '[' :: B ++ ']' :: '[' :: C ++ ']' :: '[' :: D ++ [']']) '[') ?_ ?_ ?_
    · rw [hs]; simp
    · simp
    · simp
  have f1 : findFrom s ']' (0 + 1) = some (A.length + 1) := by
    refine findFrom_eq_of (@findFrom_after ['['] A
      ('[' :: B ++ ']' :: '[' :: C ++ ']' :: '[' :: D ++ [']']) ']' hA2) ?_ ?_ ?_
    · rw [hs]; simp
    · simp only [List.length_singleton]
    · simp only [List.length_singleton] <;> omega
  have f2 : findFrom s '[' (A.length + 1 + 1) = some (A.length + 2) := by
    refine findFrom_eq_of (@findFrom_block ('[' :: A ++ [']'])
      (B ++ ']' :: '[' :: C ++ ']' :: '[' :: D ++ [']']) '[') ?_ ?_ ?_
    · rw [hs]; simp
    · simp only [List.length_cons, List.length_append, List.length_nil] <;> omega
    · simp only [List.length_cons, List.length_append, List.length_nil] <;> omega
  have f3 : findFrom s ']' (A.length + 2 + 1) = some (A.length + B.length + 3) := by
    refine findFrom_eq_of (@findFrom_after ('[' :: A ++ ']' :: ['[']) B
      ('[' :: C ++ ']' :: '[' :: D ++ [']']) ']' hB2) ?_ ?_ ?_
    · rw [hs]; simp
    · simp only [List.length_cons, List.length_append, List.length_nil] <;> omega
    · simp only [List.length_cons, List.length_append, List.length_nil] <;> omega
  have f4 : findFrom s '[' (A.length + B.length + 3 + 1) =
      some (A.length + B.length + 4) := by
    refine findFrom_eq_of (@findFrom_block ('[' :: A ++ ']' :: '[' :: B ++ [']'])
      (C ++ ']' :: '[' :: D ++ [']']) '[') ?_ ?_ ?_
    · rw [hs]; simp
    · simp only [List.length_cons, List.length_append, List.length_nil] <;> omega
    · simp only [List.length_cons, List.length_append, List.length_nil] <;> omega
  have f5 : findFrom s ']' (A.length + B.length + 4 + 1) =
      some (A.length + B.length + C.length + 5) := by
    refine findFrom_eq_of (@findFrom_after
      ('[' :: A ++ ']' :: '[' :: B ++ ']' :: ['[']) C
      ('[' :: D ++ [']']) ']' hC2) ?_ ?_ ?_
    · rw [hs]; simp
    · simp only [List.length_cons, List.length_append, List.length_nil] <;> omega
    · simp only [List.length_cons, List.length_append, List.length_nil] <;> omega
  have f6 : findFrom s '[' (A.length + B.length + C.length + 5 + 1) =
      some (A.length + B.length + C.length + 6) := by
    refine findFrom_eq_of (@findFrom_block
      ('[' :: A ++ ']' :: '[' :: B ++ ']' :: '[' :: C ++ [']'])
      (D ++ [']']) '[') ?_ ?_ ?_
    · rw [hs]; simp
    · simp only [List.length_cons, List.length_append, List.length_nil] <;> omega
    · simp only [List.length_cons, List.length_append, List.length_nil] <;> omega
  have f7 : findFrom s ']' (A.length + B.length + C.length + 6 + 1) =
      some (A.length + B.length + C.length + D.length + 7) := by
    refine findFrom_eq_of (@findFrom_after
      ('[' :: A ++ ']' :: '[' :: B ++ ']' :: '[' :: C ++ ']' :: ['[']) D [] ']' hD2) ?_ ?_ ?_
    · rw [hs]; simp
    · simp only [List.length_cons, List.length_append, List.length_nil] <;> omega
    · simp only [List.length_cons, List.length_append, List.length_nil] <;> omega
  have hb : findBrackets s = some [0, A.length + 1, A.length + 2,
      A.length + B.length + 3, A.length + B.length + 4,
      A.length + B.length + C.length + 5, A.length + B.length + C.length + 6,
      A.length + B.length + C.length + D.length + 7] := by
    unfold findBrackets
    exact findSeq_step f0 (findSeq_step f1 (findSeq_step f2 (findSeq_step f3
      (findSeq_step f4 (findSeq_step f5 (findSeq_step f6 (findSeq_step f7 rfl)))))))
  have hsl0 : slice s (0 + 1) (A.length + 1) = A := by
    refine slice_eq_of (@slice_exact ['['] A
      (']' :: '[' :: B ++ ']' :: '[' :: C ++ ']' :: '[' :: D ++ [']'])) ?_ ?_ ?_
    · rw [hs]; simp
    · simp only [List.length_singleton]
    · simp only [List.length_singleton] <;> omega
  have hsl1 : slice s (A.length + 2 + 1) (A.length + B.length + 3) = B := by
    refine slice_eq_of (@slice_exact ('[' :: A ++ ']' :: ['[']) B
      (']' :: '[' :: C ++ ']' :: '[' :: D ++ [']'])) ?_ ?_ ?_
    · rw [hs]; simp
    · simp only [List.length_cons, List.length_append, List.length_nil] <;> omega
    · simp only [List.length_cons, List.length_append, List.length_nil] <;> omega
  have hsl2 : slice s (A.length + B.length + 4 + 1)
      (A.length + B.length + C.length + 5) = C := by
    refine slice_eq_of (@slice_exact
      ('[' :: A ++ ']' :: '[' :: B ++ ']' :: ['[']) C
      (']' :: '[' :: D ++ [']'])) ?_ ?_ ?_
    · rw [hs]; simp
    · simp only [List.length_cons, List.length_append, List.length_nil] <;> omega
    · simp only [List.length_cons, List.length_append, List.length_nil] <;> omega
  have hsl3 : slice s (A.length + B.length + C.length + 6 + 1)
      (A.length + B.length + C.length + D.length + 7) = D := by
    refine slice_eq_of (@slice_exact
      ('[' :: A ++ ']' :: '[' :: B ++ ']' :: '[' :: C ++ ']' :: ['[']) D [']']) ?_ ?_ ?_
    · rw [hs]; simp
    · simp only [List.length_cons, List.length_append, List.length_nil] <;> omega
    · simp only [List.length_cons, List.length_append, List.length_nil] <;> omega
  have hlen : s.length = A.length + B.length + C.length + D.length + 8 := by
    rw [hs]
    simp only [List.length_cons, List.length_append, List.length_nil]
    omega
  unfold parse_message
  rw [hb]
  dsimp only
  rw [hsl1]
  cases hpb : pyInt B with
  | none => rfl
  | some ts =>
    dsimp only
    rw [hsl2]
    by_cases hmt : is_message_type C = true
    · rw [if_pos hmt, if_pos hmt, hsl0, hsl3, hlen]
    · rw [if_neg hmt, if_neg hmt]

/-! ## Facts about message-type wire text and encoded frames -/

theorem is_message_type_value (mt : MESSAGE_TYPE) :
    is_message_type mt.value = true := by
  cases mt <;> decide

theorem msgTypeOfString_value (mt : MESSAGE_TYPE) :
    msgTypeOfString mt.value = mt := by
  cases mt <;> decide

theorem value_no_close_bracket (mt : MESSAGE_TYPE) : ']' ∉ mt.value := by
  cases mt <;> decide

theorem pyStr_mem_digit_or_minus {i : Int} {c : Char} (h : c ∈ pyStr i) :
    c.isDigit = true ∨ c = '-' := by
  unfold pyStr at h
  by_cases hi : i < 0
  · rw [if_pos hi] at h
    rcases List.mem_cons.mp h with h | h
    · exact Or.inr h
    · exact Or.inl (natDigits_all_digits _ _ h)
  · rw [if_neg hi] at h
    exact Or.inl (natDigits_all_digits _ _ h)

theorem pyStr_no_close_bracket (i : Int) : ']' ∉ pyStr i := by
  intro h
  rcases pyStr_mem_digit_or_minus h with h1 | h1 <;> exact absurd h1 (by decide)

theorem pyStr_head_not_t {i : Int} {c : Char} {rest : List Char}
    (h : pyStr i = c :: rest) : c ≠ 't' := by
  intro hc
  have hmem : c ∈ pyStr i := by rw [h]; exact List.mem_cons_self c rest
  rcases pyStr_mem_digit_or_minus hmem with h1 | h1
  · rw [hc] at h1; exact absurd h1 (by decide)
  · rw [hc] at h1; exact absurd h1 (by decide)

theorem pyStr_ne_nil (i : Int) : pyStr i ≠ [] := by
  unfold pyStr
  by_cases hi : i < 0
  · rw [if_pos hi]; simp
  · rw [if_neg hi]; exact natDigits_ne_nil _

/-- A buffered log line (starting with a rendered integer) is never the
CSV header line. -/
theorem pyStr_append_ne_csvHeader (i : Int) (rest : List Char) :
    pyStr i ++ rest ≠ csvHeader := by
  intro h
  rcases hd : pyStr i with _ | ⟨c, tl⟩
  · exact absurd hd (pyStr_ne_nil i)
  · rw [hd] at h
    have hc : c = 't' := by
      have : c :: (tl ++ rest) = csvHeader := by simpa using h
      have hh : csvHeader = 't' :: "imestamp,duration,message_length\n".toList := by decide
      rw [hh] at this
      exact (List.cons.inj this).1
    exact absurd hc (pyStr_head_not_t hd)

theorem dataLogLine_ne_csvHeader (now : Int) (m : Message) :
    dataLogLine now m ≠ csvHeader := by
  unfold dataLogLine
  have h := pyStr_append_ne_csvHeader now
    (",".toList ++ pyStr m.get_duration ++ ",".toList ++ pyStr (m.size : Int) ++ "\n".toList)
  intro hc
  apply h
  rw [← hc]
  simp [List.append_assoc]

theorem recvLogLine_ne_csvHeader (m : Message) : recvLogLine m ≠ csvHeader := by
  unfold recvLogLine
  have h := pyStr_append_ne_csvHeader m.receive_timestamp_ms
    (",".toList ++ pyStr m.get_duration ++ ",".toList ++ pyStr (m.size : Int) ++ "\n".toList)
  intro hc
  apply h
  rw [← hc]
  simp [List.append_assoc]

/-- Length of the unpadded frame text. -/
theorem Message.base_length (m : Message) :
    m.base.length = m.id.length + (pyStr m.creation_timestamp_ms).length +
      m.msg_type.value.length + m.data_content.length + 8 := by
  unfold Message.base
  simp only [List.length_cons, List.length_append, List.length_nil]
  omega

theorem str_of_not_padding {m : Message}
    (h : ¬(m.msg_type = MESSAGE_TYPE.DATA ∧ m.incoming = false)) :
    m.str = m.base := by
  unfold Message.str
  rw [if_neg h]

theorem str_eq_base_of_le {m : Message} (h : m.size ≤ m.base.length) :
    m.str = m.base := by
  unfold Message.str
  by_cases hc : m.msg_type = MESSAGE_TYPE.DATA ∧ m.incoming = false
  · rw [if_pos hc]
    dsimp only
    rw [if_neg (by omega)]
  · rw [if_neg hc]

theorem str_of_padding {m : Message} (h1 : m.msg_type = MESSAGE_TYPE.DATA)
    (h2 : m.incoming = false) (h3 : m.base.length < m.size) :
    m.str = '[' :: m.id ++ ']' :: '[' :: pyStr m.creation_timestamp_ms ++
      ']' :: '[' :: m.msg_type.value ++ ']' :: '[' ::
      (m.data_content ++ List.replicate (m.size - m.base.length) '1') ++ [']'] := by
  unfold Message.str
  rw [if_pos ⟨h1, h2⟩]
  dsimp only
  rw [if_pos (by omega)]
  have hk : ((m.size : Int) - (m.base.length : Int)).toNat = m.size - m.base.length := by
    omega
  rw [hk]
  simp [List.append_assoc]

/-! ## Logger state lemmas -/

theorem flush_log_buffer_shape (s : PeerState) :
    ∃ f lb, flush_log_buffer s = { s with fs := f, log_buffer := lb } := by
  unfold flush_log_buffer
  by_cases h : s.log_buffer = [] ∨ s.log_filename = []
  · rw [if_pos h]
    exact ⟨s.fs, s.log_buffer, rfl⟩
  · rw [if_neg h]
    exact ⟨_, _, rfl⟩

theorem add_to_log_buffer_shape (s : PeerState) (l : List Char) :
    ∃ f lb, add_to_log_buffer s l = { s with fs := f, log_buffer := lb } := by
  unfold add_to_log_buffer
  dsimp only
  by_cases h : s.buffer_size_limit ≤ (s.log_buffer ++ [l]).length
  · rw [if_pos h]
    obtain ⟨f, lb, e⟩ :=
      flush_log_buffer_shape { s with log_buffer := s.log_buffer ++ [l] }
    rw [e]
    exact ⟨f, lb, rfl⟩
  · rw [if_neg h]
    exact ⟨s.fs, _, rfl⟩

/-- `add_to_log_buffer` touches only `fs` and `log_buffer`. -/
theorem add_to_log_buffer_proj (s : PeerState) (l : List Char) :
    (add_to_log_buffer s l).peer_name = s.peer_name ∧
    (add_to_log_buffer s l).message_size = s.message_size ∧
    (add_to_log_buffer s l).sent_messages_count = s.sent_messages_count ∧
    (add_to_log_buffer s l).received_messages_count = s.received_messages_count ∧
    (add_to_log_buffer s l).test_active = s.test_active ∧
    (add_to_log_buffer s l).clear_to_send = s.clear_to_send ∧
    (add_to_log_buffer s l).should_send_ping = s.should_send_ping ∧
    (add_to_log_buffer s l).outgoing_message_queue = s.outgoing_message_queue ∧
    (add_to_log_buffer s l).log_filename = s.log_filename := by
  obtain ⟨f, lb, e⟩ := add_to_log_buffer_shape s l
  rw [e]
  exact ⟨rfl, rfl, rfl, rfl, rfl, rfl, rfl, rfl, rfl⟩

theorem totalRecords_flush (s : PeerState) :
    totalRecords (flush_log_buffer s) = totalRecords s := by
  unfold flush_log_buffer
  by_cases h : s.log_buffer = [] ∨ s.log_filename = []
  · rw [if_pos h]
  · rw [if_neg h]
    unfold totalRecords countNonHeader
    dsimp only
    rw [if_pos rfl]
    cases hfs : s.fs s.log_filename with
    | none =>
      simp only [hfs, Option.isSome_none, Bool.false_eq_true, if_false,
        Option.getD_none, Option.getD_some, List.filter_append,
        List.length_append, List.filter_nil, List.length_nil]
      have : List.filter (fun l => l != csvHeader) [csvHeader] = [] := by simp
      rw [this]
      simp
    | some old =>
      simp only [hfs, Option.isSome_some, if_true, Option.getD_some,
        List.filter_append, List.length_append, List.filter_nil, List.length_nil]
      omega

theorem totalRecords_add (s : PeerState) (l : List Char) (hl : l ≠ csvHeader) :
    totalRecords (add_to_log_buffer s l) = totalRecords s + 1 := by
  have hfil : List.filter (fun x => x != csvHeader) [l] = [l] := by
    simp [hl]
  unfold add_to_log_buffer
  dsimp only
  by_cases h : s.buffer_size_limit ≤ (s.log_buffer ++ [l]).length
  · rw [if_pos h, totalRecords_flush]
    unfold totalRecords countNonHeader
    dsimp only
    rw [List.filter_append, hfil]
    simp only [List.length_append, List.length_singleton]
    omega
  · rw [if_neg h]
    unfold totalRecords countNonHeader
    dsimp only
    rw [List.filter_append, hfil]
    simp only [List.length_append, List.length_singleton]
    omega

theorem totalRecords_send_pong (s : PeerState) (now : Int) :
    totalRecords (send_pong_response s now) = totalRecords s := rfl

/-! ## Dispatch lemmas -/

/-- Dispatching a PING data frame while the test is active appends exactly
one PONG to the outgoing queue (the reply produced by
`send_pong_response`), and leaves `test_active` up. -/
theorem process_ping_appends_pong (s : PeerState) (now : Int) (m : Message)
    (hty : m.msg_type = MESSAGE_TYPE.DATA)
    (hping : "PING".toList.isPrefixOf m.data_content = true)
    (hta : s.test_active = true) :
    (process_message s now m).outgoing_message_queue =
      s.outgoing_message_queue ++
        [{ id := s.peer_name ++ "_M_".toList ++ natDigits s.sent_messages_count
           creation_timestamp_ms := now
           msg_type := MESSAGE_TYPE.DATA
           data_content := "PONG".toList
           size := s.message_size
           incoming := false
           receive_timestamp_ms := 0 }] ∧
    (process_message s now m).test_active = true := by
  unfold process_message
  rw [hty]
  dsimp only
  unfold handle_data_message
  dsimp only
  obtain ⟨f1, l1, e1⟩ := add_to_log_buffer_shape
    { s with received_messages_count := s.received_messages_count + 1 }
    (dataLogLine now m)
  rw [e1]
  dsimp only
  rw [if_pos hta, if_pos hping]
  unfold log_received_message
  obtain ⟨f2, l2, e2⟩ := add_to_log_buffer_shape
    { { s with received_messages_count := s.received_messages_count + 1 } with
      fs := f1, log_buffer := l1 }
    (recvLogLine m)
  rw [e2]
  unfold send_pong_response create_message
  dsimp only
  exact ⟨rfl, hta⟩

theorem countPongs_append (q1 q2 : List Message) :
    countPongs (q1 ++ q2) = countPongs q1 + countPongs q2 := by
  simp [countPongs, List.filter_append]

/-! ## Claim theorems -/

/-- C1 (counterexample): in a responder state with the test active,
dispatching two PING frames enqueues two PONG replies, not one — the code
acknowledges every PING, contradicting the claim that only the first PING
of a run is acknowledged. -/
theorem claim_C1_counterexample :
    countPongs ((processMany samplePeer 100
      [samplePing, { samplePing with id := "B_M_1".toList }]).outgoing_message_queue) = 2 ∧
    countPongs ((processMany samplePeer 100
      [samplePing, { samplePing with id := "B_M_1".toList }]).outgoing_message_queue) ≠ 1 := by
  decide

/-- C1 (amended): whenever the test is active, every DATA frame with a
PING payload dispatched to the state machine enqueues exactly one PONG
reply — the role is not consulted and no first-PING latch exists, so `n`
dispatched PINGs produce exactly `n` PONGs. -/
theorem claim_C1_pong_per_ping :
    (∀ (s : PeerState) (now : Int) (m : Message),
      m.msg_type = MESSAGE_TYPE.DATA →
      "PING".toList.isPrefixOf m.data_content = true →
      s.test_active = true →
      ∃ p, (process_message s now m).outgoing_message_queue =
          s.outgoing_message_queue ++ [p] ∧
        p.msg_type = MESSAGE_TYPE.DATA ∧ p.data_content = "PONG".toList) ∧
    (∀ (s : PeerState) (now : Int) (m : Message),
      m.msg_type = MESSAGE_TYPE.DATA →
      "PING".toList.isPrefixOf m.data_content = true →
      s.test_active = true →
      ∀ n, countPongs ((processMany s now (List.replicate n m)).outgoing_message_queue) =
        countPongs s.outgoing_message_queue + n) := by
  constructor
  · intro s now m hty hping hta
    exact ⟨_, (process_ping_appends_pong s now m hty hping hta).1, rfl, rfl⟩
  · intro s now m hty hping hta n
    induction n generalizing s with
    | zero => simp [processMany]
    | succ n ih =>
      rw [List.replicate_succ]
      have hstep := process_ping_appends_pong s now m hty hping hta
      have hq : countPongs (process_message s now m).outgoing_message_queue =
          countPongs s.outgoing_message_queue + 1 := by
        rw [hstep.1, countPongs_append]
        simp [countPongs]
      have : processMany s now (m :: List.replicate n m) =
          processMany (process_message s now m) now (List.replicate n m) := by
        simp [processMany]
      rw [this, ih _ hstep.2, hq]
      omega

/-- C10: for every DATA frame dispatched to the state machine, exactly two
log records are appended (the dispatcher's unconditional line plus the
received-message logger's line) when `test_active` holds, and exactly one
otherwise; headers are not counted and flushing moves records without
losing them. -/
theorem claim_C10_data_frame_logged_twice (s : PeerState) (now : Int) (m : Message)
    (hty : m.msg_type = MESSAGE_TYPE.DATA) :
    totalRecords (process_message s now m) =
      totalRecords s + (if s.test_active = true then 2 else 1) := by
  have hrecv : totalRecords
      { s with received_messages_count := s.received_messages_count + 1 } =
      totalRecords s := rfl
  unfold process_message
  rw [hty]
  dsimp only
  unfold handle_data_message
  dsimp only
  have hta : (add_to_log_buffer
      { s with received_messages_count := s.received_messages_count + 1 }
      (dataLogLine now m)).test_active = s.test_active :=
    (add_to_log_buffer_proj _ _).2.2.2.2.1
  rw [hta]
  by_cases h : s.test_active = true
  · rw [if_pos h, if_pos h]
    by_cases hp : "PING".toList.isPrefixOf m.data_content = true
    · rw [if_pos hp, totalRecords_send_pong]
      unfold log_received_message
      rw [totalRecords_add _ _ (recvLogLine_ne_csvHeader m),
        totalRecords_add _ _ (dataLogLine_ne_csvHeader now m), hrecv]
    · rw [if_neg hp]
      unfold log_received_message
      rw [totalRecords_add _ _ (recvLogLine_ne_csvHeader m),
        totalRecords_add _ _ (dataLogLine_ne_csvHeader now m), hrecv]
  · rw [if_neg h, if_neg h]
    rw [totalRecords_add _ _ (dataLogLine_ne_csvHeader now m), hrecv]

/-- C10 (witness): the sample PING frame dispatched to the sample
responder (test active) adds exactly two records. -/
theorem claim_C10_witness :
    totalRecords (process_message samplePeer 5 samplePing) =
      totalRecords samplePeer + 2 := by
  have h := claim_C10_data_frame_logged_twice samplePeer 5 samplePing rfl
  simpa [samplePeer] using h

/-- C1 (witness for the amended claim): the sample PING dispatched to the
sample responder enqueues one PONG. -/
theorem claim_C1_pong_per_ping_witness :
    ∃ p, (process_message samplePeer 5 samplePing).outgoing_message_queue =
        samplePeer.outgoing_message_queue ++ [p] ∧
      p.msg_type = MESSAGE_TYPE.DATA ∧ p.data_content = "PONG".toList :=
  claim_C1_pong_per_ping.1 samplePeer 5 samplePing rfl (by decide) rfl

/-- C5: a dispatched RTS frame makes the peer a responder
(`should_send_ping := false`), clears `clear_to_send` and enqueues exactly
one CTS reply — with no precondition on the previous role, so this happens
even while already sender; a dispatched CTS frame raises `clear_to_send`,
and a peer still holding the sender role then stands in the active phase
of the pacing loop. -/
theorem claim_C5_rts_cts_transitions :
    (∀ (s : PeerState) (now : Int) (m : Message),
      m.msg_type = MESSAGE_TYPE.RTS →
      (process_message s now m).should_send_ping = false ∧
      (process_message s now m).clear_to_send = false ∧
      ∃ c, (process_message s now m).outgoing_message_queue =
          s.outgoing_message_queue ++ [c] ∧ c.msg_type = MESSAGE_TYPE.CTS) ∧
    (∀ (s : PeerState) (now : Int) (m : Message),
      m.msg_type = MESSAGE_TYPE.CTS →
      (process_message s now m).clear_to_send = true ∧
      (s.should_send_ping = true →
        ping_sequence_phase (process_message s now m) = PingPhase.active)) := by
  constructor
  · intro s now m hty
    unfold process_message
    rw [hty]
    dsimp only
    unfold handle_rts_message send_cts create_message
    dsimp only
    exact ⟨rfl, rfl, _, rfl, rfl⟩
  · intro s now m hty
    unfold process_message
    rw [hty]
    dsimp only
    unfold handle_cts_message
    dsimp only
    refine ⟨rfl, fun hssp => ?_⟩
    simp [ping_sequence_phase, hssp]

/-- C5 (witness): RTS flips the sample peer (already sender) to responder
and CTS raises clear-to-send. -/
theorem claim_C5_witness :
    (process_message { samplePeer with should_send_ping := true } 5
      { samplePing with msg_type := MESSAGE_TYPE.RTS }).should_send_ping = false ∧
    (process_message { samplePeer with should_send_ping := true } 5
      { samplePing with msg_type := MESSAGE_TYPE.CTS }).clear_to_send = true :=
  ⟨(claim_C5_rts_cts_transitions.1 { samplePeer with should_send_ping := true } 5
      { samplePing with msg_type := MESSAGE_TYPE.RTS } rfl).1,
   (claim_C5_rts_cts_transitions.2 { samplePeer with should_send_ping := true } 5
      { samplePing with msg_type := MESSAGE_TYPE.CTS } rfl).1⟩

/-- C6: a received frame that decodes to a message whose id carries this
peer's own name prefix is dropped before the state machine: the peer state
is completely unchanged (no role, flag or counter change, no reply, no
queueing). -/
theorem claim_C6_self_frames_dropped (s : PeerState) (now : Int)
    (raw : List Char) (m : Message)
    (hp : parse_message raw now = some m)
    (hown : (s.peer_name ++ "_".toList).isPrefixOf m.id = true) :
    handle_peer_message s now raw = s := by
  unfold handle_peer_message
  rw [hp]
  dsimp only
  rw [if_pos (show is_own_message s m = true from hown)]

/-- C6 (witness): a frame authored by `A` itself is ignored by peer `A`. -/
theorem claim_C6_witness :
    handle_peer_message samplePeer 5 ("[A_M_0][5][DATA][PING]".toList) = samplePeer :=
  claim_C6_self_frames_dropped samplePeer 5 _
    { id := "A_M_0".toList
      creation_timestamp_ms := 5
      msg_type := MESSAGE_TYPE.DATA
      data_content := "PING".toList
      size := 22
      incoming := true
      receive_timestamp_ms := 5 }
    (by decide) (by decide)

/-- C7: when no DATA frame was observed within the run's configured
duration (`got_data = false`), the peer enqueues exactly one further
control frame appropriate to its role (RTS for a sender, CTS for a
responder), waits `min(5s, 10% of the duration)`, and — whatever the
recovery outcome — still runs the full measurement window and ends the
run normally rather than aborting. -/
theorem claim_C7_stall_recovery (s : PeerState) (now : Int) (g : Bool) :
    (∃ c, (run_tail s now false g).final.outgoing_message_queue =
        s.outgoing_message_queue ++ [c] ∧
      c.msg_type = (if s.should_send_ping = true then MESSAGE_TYPE.RTS
        else MESSAGE_TYPE.CTS)) ∧
    (run_tail s now false g).recovery_attempted = true ∧
    (run_tail s now false g).recovery_wait_s =
      some (min 5 ((s.test_duration : ℚ) * 0.1)) ∧
    (run_tail s now false g).measured_s = s.test_duration ∧
    (run_tail s now false g).final.test_active = false := by
  unfold run_tail
  rw [if_neg (by decide : ¬((false : Bool) = true))]
  by_cases hssp : s.should_send_ping = true
  · rw [if_pos hssp]
    unfold send_rts create_message
    dsimp only
    refine ⟨⟨_, rfl, ?_⟩, rfl, rfl, rfl, rfl⟩
    rw [if_pos hssp]
  · rw [if_neg hssp]
    unfold send_cts create_message
    dsimp only
    refine ⟨⟨_, rfl, ?_⟩, rfl, rfl, rfl, rfl⟩
    rw [if_neg hssp]

/-- C3: encoding an outbound DATA frame pads with `'1'` characters before
the payload's closing bracket up to exactly `size` bytes when the natural
frame is shorter, and emits the natural frame unchanged (no truncation)
when it already meets or exceeds `size`. -/
theorem claim_C3_padding (m : Message)
    (hty : m.msg_type = MESSAGE_TYPE.DATA) (hdir : m.incoming = false) :
    (m.base.length < m.size →
      m.str.length = m.size ∧
      m.str = '[' :: m.id ++ ']' :: '[' :: pyStr m.creation_timestamp_ms ++
        ']' :: '[' :: m.msg_type.value ++ ']' :: '[' ::
        (m.data_content ++ List.replicate (m.size - m.base.length) '1') ++ [']']) ∧
    (m.size ≤ m.base.length → m.str = m.base) := by
  constructor
  · intro hlt
    have hstr := str_of_padding hty hdir hlt
    refine ⟨?_, hstr⟩
    rw [hstr]
    have hbl := Message.base_length m
    simp only [List.length_cons, List.length_append, List.length_replicate,
      List.length_nil]
    omega
  · exact str_eq_base_of_le

/-- C3 (witness): the sample 100-byte PING frame encodes to exactly 100
characters. -/
theorem claim_C3_witness :
    ({ samplePing with incoming := false } : Message).base.length < 100 ∧
    (Message.str { samplePing with incoming := false }).length = 100 :=
  ⟨by decide,
   ((claim_C3_padding { samplePing with incoming := false } rfl rfl).1
     (by decide)).1⟩

/-- Every id produced by a run of consecutive `create_message` calls uses a
counter at least as large as the starting counter. -/
theorem createMany_mem_id :
    ∀ (n : Nat) (s : PeerState) (now : Int) (i : List Char),
      i ∈ ((createMany s now n).1).map Message.id →
      ∃ k, s.sent_messages_count ≤ k ∧
        i = s.peer_name ++ "_M_".toList ++ natDigits k := by
  intro n
  induction n with
  | zero =>
    intro s now i h
    simp [createMany] at h
  | succ n ih =>
    intro s now i h
    simp only [createMany, List.map_cons, List.mem_cons] at h
    rcases h with h | h
    · exact ⟨s.sent_messages_count, le_refl _, h⟩
    · obtain ⟨k, hk, hi⟩ := ih (create_message s now MESSAGE_TYPE.DATA []).2 now i h
      have hk' : s.sent_messages_count + 1 ≤ k := hk
      exact ⟨k, by omega, hi⟩

/-- C9 (counterexample): `run_throughput_test` resets `sent_messages_count`
to zero at the start of every run, so the first message of run 1 and the
first message of run 2 are distinct messages of the same peer with the
same id `A_M_0`. -/
theorem claim_C9_counterexample :
    ((create_message samplePeer 0 MESSAGE_TYPE.DATA []).1).id =
      ((create_message
        (prepare_run (create_message samplePeer 0 MESSAGE_TYPE.DATA []).2 1 2)
        5 MESSAGE_TYPE.DATA []).1).id ∧
    (create_message samplePeer 0 MESSAGE_TYPE.DATA []).1 ≠
      (create_message
        (prepare_run (create_message samplePeer 0 MESSAGE_TYPE.DATA []).2 1 2)
        5 MESSAGE_TYPE.DATA []).1 := by
  decide

/-- C9 (amended): within a single run (that is, between counter resets),
the ids `<peerName>_M_<counter>` of the messages a peer creates are
pairwise distinct, because the counter increases monotonically; across
runs the counter restarts at zero and ids repeat. -/
theorem claim_C9_ids_unique_within_run (s : PeerState) (now : Int) (n : Nat) :
    (((createMany s now n).1).map Message.id).Nodup := by
  induction n generalizing s with
  | zero => simp [createMany]
  | succ n ih =>
    simp only [createMany, List.map_cons]
    rw [List.nodup_cons]
    refine ⟨?_, ih _⟩
    intro hmem
    obtain ⟨k, hk, hi⟩ :=
      createMany_mem_id n (create_message s now MESSAGE_TYPE.DATA []).2 now _ hmem
    have hk' : s.sent_messages_count + 1 ≤ k := hk
    have hdig : natDigits s.sent_messages_count = natDigits k :=
      List.append_cancel_left hi
    have := natDigits_injective hdig
    omega

/-- C8 (counterexample): flushing a fresh run file writes the header
`timestamp,duration,message_length`, not the
`message_id,timestamp_ms,message_length` columns the claim asserts (and
there is a single run file and a single buffer, not one per direction). -/
theorem claim_C8_counterexample :
    (flush_log_buffer { samplePeer with log_buffer := ["1,2,3\n".toList] }).fs
      ("f".toList) = some [csvHeader, "1,2,3\n".toList] ∧
    csvHeader ≠ specClaimedHeader := by
  decide

/-- C8 (amended): the logger keeps one buffer and one CSV file per run
(received-data records only); a flush appends the buffered lines to the
run's file, writing the header `timestamp,duration,message_length` first
exactly when the file does not yet exist, and clears the buffer;
`add_to_log_buffer` appends to the buffer and triggers the flush exactly
when the buffer reaches `buffer_size_limit` (1000 by default). -/
theorem claim_C8_logger_behaviour (s : PeerState) (line : List Char)
    (old : List (List Char)) :
    (s.log_buffer ≠ [] → s.log_filename ≠ [] → s.fs s.log_filename = none →
      (flush_log_buffer s).fs s.log_filename = some (csvHeader :: s.log_buffer) ∧
      (flush_log_buffer s).log_buffer = []) ∧
    (s.log_buffer ≠ [] → s.log_filename ≠ [] → s.fs s.log_filename = some old →
      (flush_log_buffer s).fs s.log_filename = some (old ++ s.log_buffer) ∧
      (flush_log_buffer s).log_buffer = []) ∧
    (s.log_buffer.length + 1 < s.buffer_size_limit →
      (add_to_log_buffer s line).log_buffer = s.log_buffer ++ [line] ∧
      (add_to_log_buffer s line).fs = s.fs) ∧
    (s.buffer_size_limit ≤ s.log_buffer.length + 1 → s.log_filename ≠ [] →
      (add_to_log_buffer s line).log_buffer = [] ∧
      (add_to_log_buffer s line).fs s.log_filename =
        some ((if (s.fs s.log_filename).isSome then (s.fs s.log_filename).getD []
          else [csvHeader]) ++ (s.log_buffer ++ [line]))) := by
  refine ⟨?_, ?_, ?_, ?_⟩
  · intro h1 h2 h3
    unfold flush_log_buffer
    rw [if_neg (by simp [h1, h2])]
    dsimp only
    rw [h3]
    simp
  · intro h1 h2 h3
    unfold flush_log_buffer
    rw [if_neg (by simp [h1, h2])]
    dsimp only
    rw [h3]
    simp
  · intro h
    unfold add_to_log_buffer
    dsimp only
    rw [if_neg (by simp only [List.length_append, List.length_singleton]; omega)]
    exact ⟨rfl, rfl⟩
  · intro h1 h2
    unfold add_to_log_buffer
    dsimp only
    rw [if_pos (by simp only [List.length_append, List.length_singleton]; omega)]
    unfold flush_log_buffer
    rw [if_neg (by simp [h2])]
    dsimp only
    simp

/-- C8 (witness): a flush empties the sample buffer into the file, and a
below-cap append just grows the buffer. -/
theorem claim_C8_witness :
    (flush_log_buffer { samplePeer with log_buffer := ["1,2,3\n".toList] }).log_buffer
      = [] ∧
    (add_to_log_buffer samplePeer ("1,2,3\n".toList)).log_buffer =
      samplePeer.log_buffer ++ ["1,2,3\n".toList] :=
  ⟨((claim_C8_logger_behaviour { samplePeer with log_buffer := ["1,2,3\n".toList] }
      [] []).1 (by decide) (by decide) (by decide)).2,
   ((claim_C8_logger_behaviour samplePeer ("1,2,3\n".toList) []).2.2.1
      (by decide)).1⟩

theorem list_length_eight {α : Type} {bs : List α} (h : bs.length = 8) :
    ∃ b0 b1 b2 b3 b4 b5 b6 b7, bs = [b0, b1, b2, b3, b4, b5, b6, b7] := by
  rcases bs with _ | ⟨b0, _ | ⟨b1, _ | ⟨b2, _ | ⟨b3, _ | ⟨b4, _ | ⟨b5, _ |
    ⟨b6, _ | ⟨b7, _ | ⟨b8, bs⟩⟩⟩⟩⟩⟩⟩⟩⟩ <;>
    first
      | exact ⟨_, _, _, _, _, _, _, _, rfl⟩
      | (exfalso
         simp only [List.length_cons, List.length_nil] at h
         omega)

/-- C2 (counterexample): the wire format has four bracketed fields, not
three — `[a][DATA][x]` has three bracketed groups whose second group is a
valid kind, yet `parse_message` rejects it. -/
theorem claim_C2_counterexample :
    (bracketGroups ("[a][DATA][x]".toList)).length = 3 ∧
    (bracketGroups ("[a][DATA][x]".toList)).get? 1 = some ("DATA".toList) ∧
    parse_message ("[a][DATA][x]".toList) 0 = none := by
  decide

/-- C2 (amended): `parse_message` succeeds exactly when the input has at
least 4 greedily-scanned bracketed groups, the second group parses as a
Python integer, and the third group is one of DATA/RTS/CTS; any other
input (including the spec's 3-group frames) fails. On success the
message's `size` is the length of the received wire string. -/
theorem claim_C2_decode_characterisation (s : List Char) (t : Int) :
    ((parse_message s t).isSome = true ↔
      4 ≤ (bracketGroups s).length ∧
      (∃ g, (bracketGroups s).get? 1 = some g ∧ (pyInt g).isSome = true) ∧
      (∃ g, (bracketGroups s).get? 2 = some g ∧ is_message_type g = true)) ∧
    (∀ m, parse_message s t = some m → m.size = s.length) := by
  constructor
  · constructor
    · intro h
      rw [Option.isSome_iff_exists] at h
      obtain ⟨m, hm⟩ := h
      obtain ⟨b0, b1, b2, b3, b4, b5, b6, b7, ts, hfb, hpi, hmt, _⟩ :=
        parse_message_inv hm
      have hfs : findSeq s (altPattern 4) 0 =
          some [b0, b1, b2, b3, b4, b5, b6, b7] := by
        rw [altPattern_four]; exact hfb
      have h8 : 8 ≤ s.length := by
        rcases findSeq_bound _ _ _ hfs with h | h
        · exact absurd h (by decide)
        · have he : (altPattern 4).length = 8 := rfl
          omega
      obtain ⟨rest, hg⟩ := groupsFrom_of_findSeq 4 s.length 0 _ hfs (by omega)
      have hbg : bracketGroups s =
          [slice s (b0 + 1) b1, slice s (b2 + 1) b3,
           slice s (b4 + 1) b5, slice s (b6 + 1) b7] ++ rest := hg
      refine ⟨?_, ⟨slice s (b2 + 1) b3, ?_, ?_⟩, ⟨slice s (b4 + 1) b5, ?_, ?_⟩⟩
      · rw [hbg]; simp
      · rw [hbg]; rfl
      · rw [hpi]; rfl
      · rw [hbg]; rfl
      · exact hmt
    · rintro ⟨h4, ⟨g1, hg1, hpi1⟩, ⟨g2, hg2, hmt2⟩⟩
      have hiso := findSeq_of_groups 4 s.length 0 h4
      rw [Option.isSome_iff_exists] at hiso
      obtain ⟨bs, hbs⟩ := hiso
      have hlen8 : bs.length = 8 := by
        have he : (altPattern 4).length = 8 := rfl
        have := findSeq_length _ _ _ hbs
        omega
      obtain ⟨b0, b1, b2, b3, b4, b5, b6, b7, rfl⟩ := list_length_eight hlen8
      have h8 : 8 ≤ s.length := by
        rcases findSeq_bound _ _ _ hbs with h | h
        · exact absurd h (by decide)
        · have he : (altPattern 4).length = 8 := rfl
          omega
      obtain ⟨rest, hg⟩ := groupsFrom_of_findSeq 4 s.length 0 _ hbs (by omega)
      have hbg : bracketGroups s =
          [slice s (b0 + 1) b1, slice s (b2 + 1) b3,
           slice s (b4 + 1) b5, slice s (b6 + 1) b7] ++ rest := hg
      rw [hbg] at hg1 hg2
      have hg1' : some (slice s (b2 + 1) b3) = some g1 := hg1
      have hg2' : some (slice s (b4 + 1) b5) = some g2 := hg2
      have e1 := Option.some.inj hg1'
      have e2 := Option.some.inj hg2'
      subst e1
      subst e2
      have hfb : findBrackets s = some [b0, b1, b2, b3, b4, b5, b6, b7] := hbs
      rw [Option.isSome_iff_exists]
      unfold parse_message
      rw [hfb]
      dsimp only
      rw [Option.isSome_iff_exists] at hpi1
      obtain ⟨ts, hts⟩ := hpi1
      rw [hts]
      dsimp only
      rw [if_pos hmt2]
      exact ⟨_, rfl⟩
  · intro m hm
    obtain ⟨b0, b1, b2, b3, b4, b5, b6, b7, ts, _, _, _, hmeq⟩ :=
      parse_message_inv hm
    rw [hmeq]

/-- C2 (witness): a well-formed 4-field frame decodes, and the decoded
`size` equals the wire length. -/
theorem claim_C2_witness :
    (parse_message ("[a][1][DATA][x]".toList) 7).isSome = true ∧
    ∀ m, parse_message ("[a][1][DATA][x]".toList) 7 = some m →
      m.size = ("[a][1][DATA][x]".toList).length :=
  ⟨(claim_C2_decode_characterisation ("[a][1][DATA][x]".toList) 7).1.mpr
      (by decide),
   (claim_C2_decode_characterisation ("[a][1][DATA][x]".toList) 7).2⟩

/-- C4: decoding the encoding of a message with bracket-free string fields
recovers the original id, creation timestamp and kind; the direction is
always inbound after decoding, and the payload is also recovered whenever
the outbound-DATA padding did not rewrite it. -/
theorem claim_C4_roundtrip (m : Message) (t : Int)
    (hid1 : '[' ∉ m.id) (hid2 : ']' ∉ m.id)
    (hc1 : '[' ∉ m.data_content) (hc2 : ']' ∉ m.data_content) :
    ∃ m', parse_message m.str t = some m' ∧
      m'.id = m.id ∧
      m'.creation_timestamp_ms = m.creation_timestamp_ms ∧
      m'.msg_type = m.msg_type ∧
      m'.incoming = true ∧
      (¬(m.msg_type = MESSAGE_TYPE.DATA ∧ m.incoming = false ∧
          m.base.length < m.size) → m'.data_content = m.data_content) := by
  by_cases hpad : m.msg_type = MESSAGE_TYPE.DATA ∧ m.incoming = false ∧
      m.base.length < m.size
  · obtain ⟨h1, h2, h3⟩ := hpad
    have hstr := str_of_padding h1 h2 h3
    have hD2 : ']' ∉ m.data_content ++ List.replicate (m.size - m.base.length) '1' := by
      intro hmem
      rcases List.mem_append.mp hmem with h | h
      · exact hc2 h
      · exact absurd (List.eq_of_mem_replicate h) (by decide)
    have hp := parse_canonical t hstr hid2 (pyStr_no_close_bracket _)
      (value_no_close_bracket _) hD2
    rw [hp, pyInt_pyStr]
    dsimp only
    rw [if_pos (is_message_type_value _)]
    exact ⟨_, rfl, rfl, rfl, msgTypeOfString_value _, rfl,
      fun hn => absurd ⟨h1, h2, h3⟩ hn⟩
  · have hstr : m.str = m.base := by
      by_cases hc : m.msg_type = MESSAGE_TYPE.DATA ∧ m.incoming = false
      · refine str_eq_base_of_le ?_
        by_contra hlt
        exact hpad ⟨hc.1, hc.2, by omega⟩
      · exact str_of_not_padding hc
    have hsform : m.str = '[' :: m.id ++ ']' :: '[' :: pyStr m.creation_timestamp_ms ++
        ']' :: '[' :: m.msg_type.value ++ ']' :: '[' :: m.data_content ++ [']'] := by
      rw [hstr]; rfl
    have hp := parse_canonical t hsform hid2 (pyStr_no_close_bracket _)
      (value_no_close_bracket _) hc2
    rw [hp, pyInt_pyStr]
    dsimp only
    rw [if_pos (is_message_type_value _)]
    exact ⟨_, rfl, rfl, rfl, msgTypeOfString_value _, rfl, fun _ => rfl⟩

/-- C4 (witness): the sample outbound RTS frame round-trips. -/
theorem claim_C4_witness :
    ∃ m', parse_message (Message.str sampleRts) 9 = some m' ∧
      m'.id = sampleRts.id ∧
      m'.creation_timestamp_ms = sampleRts.creation_timestamp_ms ∧
      m'.msg_type = sampleRts.msg_type ∧
      m'.incoming = true ∧
      (¬(sampleRts.msg_type = MESSAGE_TYPE.DATA ∧ sampleRts.incoming = false ∧
          sampleRts.base.length < sampleRts.size) →
        m'.data_content = sampleRts.data_content) :=
  claim_C4_roundtrip sampleRts 9 (by decide) (by decide) (by decide) (by decide)

end PingPong
